import Mathlib

/-!
Verification of the session-vault, quota-governor, retry-policy,
adaptive-fetch-chain and result-filter/dedup components of the LeadHunt
service (`src/main.py`, `src/utils.py`).

Modelling conventions for the shallow embedding:
* Python dictionaries are association lists over `String` keys;
  `dict.get(k, 0)` is `dictGetD 0`, `d[k] = v` is `dictSet`.
* Wall-clock timestamps (`datetime.now().timestamp()`, floats) and the
  float `engagement_rate` are modelled as rationals.
* A raised `HTTPException` is an explicit result constructor
  (`CapResult.rejectedHourly`, `Except.error`, ...).
* The time-dependent bucket keys (`strftime` of the current hour/day) are
  passed as explicit `String` parameters; calls in the same hour bucket
  share the same key string.
* The in-process fallback backends (`_memory_cap`, `_pause_until`, lines
  104-111, 119-121 and 130 of `src/main.py`) are modelled; the shared-store
  branch performs the same increment/threshold sequence via INCR/SETEX.
-/

namespace LeadHunt

/-- Association-list model of a Python dict: `m.get(key, d)`. -/
def dictGetD {α : Type} (d : α) : List (String × α) → String → α
  | [], _ => d
  | (k, v) :: rest, key => if k = key then v else dictGetD d rest key

/-- Association-list model of a Python dict: `m[key] = v`. -/
def dictSet {α : Type} : List (String × α) → String → α → List (String × α)
  | [], key, v => [(key, v)]
  | (k, w) :: rest, key, v =>
    if k = key then (key, v) :: rest else (k, w) :: dictSet rest key v

/-- Association-list model of a Python dict: `m.get(key)` (default `None`). -/
def dictGetOpt {α : Type} : List (String × α) → String → Option α
  | [], _ => Option.none
  | (k, v) :: rest, key => if k = key then Option.some v else dictGetOpt rest key

/-- `hay` starts with `pat` (on character lists). -/
def listStartsWith : List Char → List Char → Bool
  | _, [] => true
  | [], _ :: _ => false
  | a :: as, b :: bs => a = b && listStartsWith as bs

/-- `pat` occurs as a contiguous sublist of `hay`: Python `pat in hay`. -/
def listHasSub : List Char → List Char → Bool
  | [], pat => listStartsWith [] pat
  | c :: rest, pat => listStartsWith (c :: rest) pat || listHasSub rest pat

/-- Python `pat in msg` on strings. -/
def strContains (msg pat : String) : Bool :=
  listHasSub msg.data pat.data

/-! ## Quota Governor (`enforce_internal_cap`, src/main.py lines 86-111) -/

/-- Outcome of one quota check: normal return, or the raised 429
`HTTPException` with its reason. -/
inductive CapResult where
  | ok
  | rejectedHourly
  | rejectedDaily
deriving DecidableEq

/-- `hour_key_name = f"cap:{user_id}:{hour_key}"` (line 90). -/
def hourKeyName (user_id : Nat) (hourKey : String) : String :=
  "cap:" ++ (toString user_id ++ (":" ++ hourKey))

/-- `day_key_name = f"capday:{user_id}:{day_key}"` (line 91). -/
def dayKeyName (user_id : Nat) (dayKey : String) : String :=
  "capday:" ++ (toString user_id ++ (":" ++ dayKey))

/-- `enforce_internal_cap` (in-memory fallback branch, src/main.py lines
104-111): increment the hour counter, reject if it exceeds 60; then
increment the day counter, reject if it exceeds 200.  The current
hour/day bucket keys are explicit parameters. -/
def enforce_internal_cap (user_id : Nat) (hourKey dayKey : String)
    (m : List (String × Nat)) : List (String × Nat) × CapResult :=
  let hkn := hourKeyName user_id hourKey
  let dkn := dayKeyName user_id dayKey
  let hour_count := dictGetD 0 m hkn + 1
  let m1 := dictSet m hkn hour_count
  if 60 < hour_count then (m1, CapResult.rejectedHourly)
  else
    let day_count := dictGetD 0 m1 dkn + 1
    let m2 := dictSet m1 dkn day_count
    if 200 < day_count then (m2, CapResult.rejectedDaily)
    else (m2, CapResult.ok)

/-- A run of `n` consecutive quota checks for the same caller within the
same hour and day buckets, returning the final counter state and the
list of per-call outcomes in order. -/
def runCap (user_id : Nat) (hourKey dayKey : String) :
    Nat → List (String × Nat) → List (String × Nat) × List CapResult
  | 0, m => (m, [])
  | n + 1, m =>
    let r := enforce_internal_cap user_id hourKey dayKey m
    let rest := runCap user_id hourKey dayKey n r.fst
    (rest.fst, r.snd :: rest.snd)

/-! ## Pause circuit breaker (`pause_user` / `is_paused`,
src/main.py lines 114-130) -/

/-- `key = f"pause:{user_id}"` (lines 116, 126). -/
def pauseKeyName (user_id : Nat) : String :=
  "pause:" ++ toString user_id

/-- `pause_user` (in-memory branch, line 130): record the expiry
timestamp `now + 86400`.  The current wall-clock timestamp is an
explicit rational parameter. -/
def pause_user (now : ℚ) (st : List (String × ℚ)) (user_id : Nat) :
    List (String × ℚ) :=
  dictSet st (pauseKeyName user_id) (now + 86400)

/-- `is_paused` (in-memory branch, lines 119-121): the stored expiry
(default 0) is still in the future. -/
def is_paused (now : ℚ) (st : List (String × ℚ)) (user_id : Nat) : Bool :=
  decide (now < dictGetD 0 st (pauseKeyName user_id))

/-! ## Retry Policy (`is_retryable_server_error` / `login_with_retry`,
src/main.py lines 68-83) -/

/-- `is_retryable_server_error` (lines 68-70): the error text carries an
upstream 5xx/server-error marker. -/
def is_retryable_server_error (msg : String) : Bool :=
  strContains msg "Server Error" || strContains msg "status code 5"

/-- The retry loop of `login_with_retry` (lines 74-83).  `outcomes i` is
the result of the `i`-th invocation of `client.login` (an `Except` value
modelling return-or-raise); the returned list records the durations of
the `time.sleep(2 * attempt)` calls in order. -/
def login_with_retry_go {α : Type} (outcomes : Nat → Except String α)
    (retries : Nat) (attempt : Nat) (sleeps : List Nat) :
    List Nat × Except String α :=
  match outcomes attempt with
  | Except.ok v => (sleeps, Except.ok v)
  | Except.error msg =>
    if is_retryable_server_error msg = true ∧ attempt < retries then
      login_with_retry_go outcomes retries (attempt + 1)
        (sleeps ++ [2 * (attempt + 1)])
    else (sleeps, Except.error msg)
termination_by retries - attempt
decreasing_by omega

/-- `login_with_retry` (lines 73-83): run the retry loop from attempt 0.
The source default for `retries` is 2. -/
def login_with_retry {α : Type} (outcomes : Nat → Except String α)
    (retries : Nat) : List Nat × Except String α :=
  login_with_retry_go outcomes retries 0 []

/-- Witness operation: every invocation succeeds. -/
def outcomesOk : Nat → Except String Nat :=
  fun _ => Except.ok 42

/-- Witness operation: every invocation fails non-transiently. -/
def outcomesAuthFail : Nat → Except String Nat :=
  fun _ => Except.error "challenge_required"

/-- Witness operation: every invocation fails transiently. -/
def outcomesAllFail : Nat → Except String Nat :=
  fun _ => Except.error "HTTP 500 Internal Server Error"

/-! ## Adaptive Fetch Chain (`get_hashtag_medias`,
src/main.py lines 133-164) -/

/-- Outcome of invoking one upstream client method: a media list, or a
raised exception carrying its message text. -/
inductive CallResult (μ : Type) where
  | success (medias : List μ)
  | failure (msg : String)
deriving DecidableEq

/-- The upstream client as consumed by the fetch chain: `hasattr` and
method invocation `getattr(client, name)(tag, amount=amount, **kwargs)`,
with kwargs as a name/value list. -/
structure IGClient (μ : Type) where
  supported : String → Bool
  call : String → String → Nat → List (String × String) → CallResult μ

/-- `is_media_validation_error` (lines 134-142): the error text matches
the known shape/validation markers. -/
def is_media_validation_error (msg : String) : Bool :=
  (strContains msg "validation error" && strContains msg "Media")
    || strContains msg "clips_metadata"
    || strContains msg "audio_filter_infos"
    || strContains msg "image_versions2"
    || strContains msg "scans_profile"

/-- The ordered variant list `methods` (lines 144-150). -/
def fetchMethods : List (String × List (String × String)) :=
  [("hashtag_medias_recent", []),
   ("hashtag_medias_recent_v1", []),
   ("hashtag_medias_v1", [("tab_key", "recent")]),
   ("hashtag_medias_v1", [("tab_key", "top")]),
   ("hashtag_medias_top_v1", [])]

/-- The variant loop of `get_hashtag_medias` (lines 151-164),
instrumented with the list of variants actually invoked.  Unsupported
variants are skipped; a success returns immediately; a failure matching
the validation markers records the flag and continues; any other failure
propagates (`Except.error`).  When the variant list is exhausted the
source returns `[]` whether or not a validation error was seen
(lines 162-164), so both final branches collapse to `Except.ok []`. -/
def fetchGo {μ : Type} (client : IGClient μ) (tag : String) (amount : Nat) :
    List (String × List (String × String)) → Bool →
      Except String (List μ) × List (String × List (String × String))
  | [], _saw => (Except.ok [], [])
  | v :: rest, saw =>
    if client.supported v.fst then
      match client.call v.fst tag amount v.snd with
      | CallResult.success ms => (Except.ok ms, [v])
      | CallResult.failure msg =>
        if is_media_validation_error msg then
          ((fetchGo client tag amount rest true).fst,
           v :: (fetchGo client tag amount rest true).snd)
        else (Except.error msg, [v])
    else fetchGo client tag amount rest saw

/-- `get_hashtag_medias` (lines 133-164): run the chain over the
configured variants. -/
def get_hashtag_medias {μ : Type} (client : IGClient μ) (tag : String)
    (amount : Nat) : Except String (List μ) :=
  (fetchGo client tag amount fetchMethods false).fst

/-- The variants `get_hashtag_medias` actually invokes, in order. -/
def fetchTrace {μ : Type} (client : IGClient μ) (tag : String)
    (amount : Nat) : List (String × List (String × String)) :=
  (fetchGo client tag amount fetchMethods false).snd

/-- The sub-list of configured variants the client supports
(`hasattr`), in listed order. -/
def attemptedMethods {μ : Type} (client : IGClient μ) :
    List (String × List (String × String)) :=
  fetchMethods.filter (fun v => client.supported v.fst)

/-- A call outcome that the chain classifies as a shape/validation
mismatch. -/
def isValFailure {μ : Type} : CallResult μ → Bool
  | CallResult.failure msg => is_media_validation_error msg
  | CallResult.success _ => false

/-- Witness client: the first variant is unsupported, the second fails
with a shape marker, the third succeeds. -/
def chainWitnessClient : IGClient Nat where
  supported := fun name => name != "hashtag_medias_recent"
  call := fun name _tag _amount kwargs =>
    if name = "hashtag_medias_recent_v1" then
      CallResult.failure "1 validation error for Media clips_metadata"
    else if name = "hashtag_medias_v1" ∧ kwargs = [("tab_key", "recent")] then
      CallResult.success [7]
    else CallResult.failure "Instagram rate limit"

/-! ## Result Filter / Dedup Engine (the media loop of `search`,
src/main.py lines 298-339, with the extractors of lines 167-189) -/

/-- A raw media record: either a typed object (with `.user.pk`,
`.like_count`, `.comment_count`) or an untyped mapping whose fields may
be missing or `None`. -/
inductive Media where
  | typed (user_pk : Nat) (like_count : Int) (comment_count : Int)
  | dict (user_pk : Option Nat) (like_count : Option Int)
      (comment_count : Option Int)
deriving DecidableEq

/-- `get_media_user_pk` (lines 167-173). -/
def get_media_user_pk : Media → Option Nat
  | Media.typed pk _ _ => Option.some pk
  | Media.dict pk _ _ => pk

/-- `get_media_like_count` (lines 176-181); the loop applies `or 0` to
the result, so a missing value is read through `Option.getD 0`. -/
def get_media_like_count : Media → Option Int
  | Media.typed _ lc _ => Option.some lc
  | Media.dict _ lc _ => lc

/-- `get_media_comment_count` (lines 184-189). -/
def get_media_comment_count : Media → Option Int
  | Media.typed _ _ cc => Option.some cc
  | Media.dict _ _ cc => cc

/-- The profile returned by `client.user_info(user_id)`, restricted to
the fields the loop reads; `follower_count` may be `None` (the loop
applies `or 0`). -/
structure UserInfo where
  username : String
  follower_count : Option Int
deriving DecidableEq

/-- One emitted `SearchResult` (src/schemas.py lines 15-18), with the
float engagement rate modelled as a rational. -/
structure SearchLead where
  ig_username : String
  follower_count : Int
  engagement_rate : ℚ
deriving DecidableEq

/-- The query-fixed inputs of the filter loop: the `user_info` lookup
and the thresholds `min_f`, `max_f`, `min_e`. -/
structure SearchEnv where
  userInfo : Nat → UserInfo
  min_f : Int
  max_f : Int
  min_e : ℚ

/-- `int(info.follower_count or 0)` (line 322). -/
def followerCountOf (env : SearchEnv) (uid : Nat) : Int :=
  ((env.userInfo uid).follower_count).getD 0

/-- `engagement_rate` (lines 325-327): 0.0 unless the follower count is
positive, else `(float(likes or 0) + float(comments or 0)) / followers`. -/
def mediaEngagement (env : SearchEnv) (m : Media) (uid : Nat) : ℚ :=
  if 0 < followerCountOf env uid then
    (((get_media_like_count m).getD 0 : ℚ)
        + ((get_media_comment_count m).getD 0 : ℚ))
      / ((followerCountOf env uid : Int) : ℚ)
  else 0

/-- The inner `for media in medias` loop (lines 313-337), threading the
dedup set `seen_user_ids` (as a list) and the accumulated results
(instrumented with the owning account id of each emitted lead).  The
loop body: stop at 20 results; skip a falsy (`None` or `0`) account id;
skip an id already in the dedup set; fetch the profile; skip if the
follower count is outside `[min_f, max_f]`; skip if the engagement rate
is below `min_e`; otherwise add the id to the dedup set and emit. -/
def mediaLoop (env : SearchEnv) :
    List Media → List Nat → List (Nat × SearchLead) →
      List Nat × List (Nat × SearchLead)
  | [], seen, results => (seen, results)
  | m :: rest, seen, results =>
    if 20 ≤ results.length then (seen, results)
    else
      match get_media_user_pk m with
      | Option.none => mediaLoop env rest seen results
      | Option.some uid =>
        if uid = 0 then mediaLoop env rest seen results
        else if uid ∈ seen then mediaLoop env rest seen results
        else if followerCountOf env uid < env.min_f
            ∨ env.max_f < followerCountOf env uid then
          mediaLoop env rest seen results
        else if mediaEngagement env m uid < env.min_e then
          mediaLoop env rest seen results
        else
          mediaLoop env rest (uid :: seen)
            (results ++ [(uid,
              { ig_username := (env.userInfo uid).username,
                follower_count := followerCountOf env uid,
                engagement_rate := mediaEngagement env m uid })])

/-- The outer `for tag in hashtags` loop (lines 311-339): run the media
loop for each tag's fetched medias, stopping once 20 leads are
accumulated. -/
def tagLoop (env : SearchEnv) (mediasOf : String → List Media) :
    List String → List Nat → List (Nat × SearchLead) →
      List Nat × List (Nat × SearchLead)
  | [], seen, results => (seen, results)
  | tag :: rest, seen, results =>
    let p := mediaLoop env (mediasOf tag) seen results
    if 20 ≤ p.snd.length then p
    else tagLoop env mediasOf rest p.fst p.snd

/-- The whole filter/dedup scan of one query, from an empty dedup set
and result list (lines 298-299). -/
def searchScan (env : SearchEnv) (mediasOf : String → List Media)
    (hashtags : List String) : List (Nat × SearchLead) :=
  (tagLoop env mediasOf hashtags [] []).snd

/-- Witness profile lookup: account 1 is `alice` with 5000 followers,
everything else is `bob` with 0 followers. -/
def userInfoW : Nat → UserInfo := fun uid =>
  if uid = 1 then { username := "alice", follower_count := Option.some 5000 }
  else { username := "bob", follower_count := Option.some 0 }

/-- Witness thresholds: the concrete example of the spec
(min_f = 1000, max_f = 10000, min_e = 0.0). -/
def envW : SearchEnv :=
  { userInfo := userInfoW, min_f := 1000, max_f := 10000, min_e := 0 }

/-- Witness media A: account 1, 100 likes, 20 comments. -/
def mediaA : Media := Media.typed 1 100 20

/-- Witness media B: account 2 (0 followers). -/
def mediaB : Media := Media.typed 2 0 0

/-- Counterexample environment: everyone has 5000 followers; the
engagement threshold is 0.01. -/
def envCX : SearchEnv :=
  { userInfo := fun _ =>
      { username := "u", follower_count := Option.some 5000 },
    min_f := 0, max_f := 10000000, min_e := 1 / 100 }

/-- Counterexample fetch results: tags `t1` and `t2` each return one
media owned by account 5, with 10 and 100 likes respectively. -/
def mediasOfCX : String → List Media := fun t =>
  if t = "t1" then [Media.typed 5 10 0]
  else if t = "t2" then [Media.typed 5 100 0]
  else []

/-- A media record passes the result filter for account `uid`: the
follower count is inside the inclusive `[min_f, max_f]` range and the
engagement rate is at least `min_e` (the negations of the two discard
conditions of src/main.py lines 323 and 328). -/
def passesFilter (env : SearchEnv) (m : Media) (uid : Nat) : Prop :=
  ¬(followerCountOf env uid < env.min_f
      ∨ env.max_f < followerCountOf env uid)
    ∧ ¬(mediaEngagement env m uid < env.min_e)

/-- The lead built from a passing media record (lines 331-337). -/
def leadOf (env : SearchEnv) (m : Media) (uid : Nat) : SearchLead :=
  { ig_username := (env.userInfo uid).username,
    follower_count := followerCountOf env uid,
    engagement_rate := mediaEngagement env m uid }

/-- Every record in the list that is owned by account `u` fails the
result filter. -/
def occFails (env : SearchEnv) (u : Nat) (l : List Media) : Prop :=
  ∀ m ∈ l, get_media_user_pk m = Option.some u → ¬passesFilter env m u

/-- Witness fetch results for the dedup theorem: one tag with one
media. -/
def mediasOfW : String → List Media := fun t =>
  if t = "a" then [mediaA] else []

/-! ## Session Vault and Cipher (`encrypt_session` / `decrypt_session` /
`get_session_path`, src/utils.py lines 22-31 and 104-106; the mock
branch and session refresh of src/main.py lines 230-238 and 347-349) -/

/-- A Python value as stored in a session dict, with Python truthiness. -/
inductive PyVal where
  | null
  | bool (b : Bool)
  | int (n : Int)
  | str (s : String)
deriving DecidableEq

/-- Python truthiness of a `PyVal`. -/
def pyTruthy : PyVal → Bool
  | PyVal.null => false
  | PyVal.bool b => b
  | PyVal.int n => n != 0
  | PyVal.str s => s != ""

/-- Truthiness of a `dict.get` result (`None` for a missing key). -/
def truthyOpt : Option PyVal → Bool
  | Option.none => false
  | Option.some v => pyTruthy v

/-- The mock session dict `{"mock": True}` written by `connect_ig`
(src/main.py line 231). -/
def mock_session : List (String × PyVal) := [("mock", PyVal.bool true)]

/-- `encrypt_session` (src/utils.py lines 22-25):
`json.dumps` then Fernet-encrypt.  `json` and Fernet are external
libraries consumed by the repository; they enter the model as the
abstract serializer `jsonDumps` and cipher `fernetEncrypt`. -/
def encrypt_session {σ : Type} (fernetEncrypt : String → String)
    (jsonDumps : σ → String) (p : σ) : String :=
  fernetEncrypt (jsonDumps p)

/-- `decrypt_session` (src/utils.py lines 28-31): Fernet-decrypt then
`json.loads`; a failing step raises, modelled by `Option`. -/
def decrypt_session {σ : Type} (fernetDecrypt : String → Option String)
    (jsonLoads : String → Option σ) (c : String) : Option σ :=
  (fernetDecrypt c).bind jsonLoads

/-- `get_session_path` (src/utils.py lines 104-106): the storage slot of
a handle is `sessions/{username.replace("@", "")}.enc`; replacing the
single character `"@"` by the empty string removes every `'@'`. -/
def get_session_path (username : String) : String :=
  "sessions/" ++ (String.mk (username.data.filter (fun c => c ≠ '@')) ++ ".enc")

/-- The session-refresh step at the end of a successful `search`
(src/main.py lines 347-349): unless the decrypted session dict has a
truthy `"mock"` entry, the stored blob is overwritten with the
re-encrypted refreshed client settings; otherwise it is left as is. -/
def search_persist_session (fernetEncrypt : String → String)
    (jsonDumps : List (String × PyVal) → String)
    (session_dict refreshed : List (String × PyVal)) (stored : String) :
    String :=
  if truthyOpt (dictGetOpt session_dict "mock") = true then stored
  else encrypt_session fernetEncrypt jsonDumps refreshed

/-- Witness cipher for the round-trip theorem: the identity. -/
def fernetEncW : String → String := fun s => s

/-- Witness decipher: always succeeds with the input. -/
def fernetDecW : String → Option String := fun s => Option.some s

/-- Witness serializer over `Bool` payloads. -/
def jsonDumpsW : Bool → String := fun b => cond b "T" "F"

/-- Witness deserializer inverting `jsonDumpsW`. -/
def jsonLoadsW : String → Option Bool := fun s =>
  if s = "T" then Option.some true
  else if s = "F" then Option.some false
  else Option.none

/-- Witness serializer for session dicts (only injectivity-free shape is
needed by the persistence witness). -/
def jsonDumpsD : List (String × PyVal) → String := fun d => toString d.length

/-! ## Helper lemmas for the dict model and bucket keys -/

theorem dictGetD_dictSet_self {α : Type} (d : α) (m : List (String × α))
    (k : String) (v : α) : dictGetD d (dictSet m k v) k = v := by
  induction m with
  | nil => simp [dictSet, dictGetD]
  | cons kv rest ih =>
    obtain ⟨k1, v1⟩ := kv
    by_cases h : k1 = k
    · simp [dictSet, h, dictGetD]
    · simp [dictSet, h, dictGetD, ih]

theorem dictGetD_dictSet_ne {α : Type} (d : α) (m : List (String × α))
    (k k' : String) (v : α) (h : k' ≠ k) :
    dictGetD d (dictSet m k v) k' = dictGetD d m k' := by
  induction m with
  | nil =>
    simp only [dictSet, dictGetD]
    rw [if_neg (fun hc => h hc.symm)]
  | cons kv rest ih =>
    obtain ⟨k1, v1⟩ := kv
    by_cases h1 : k1 = k
    · subst h1
      simp only [dictSet, if_pos rfl, dictGetD]
      rw [if_neg (fun hc => h hc.symm), if_neg (fun hc => h hc.symm)]
    · simp only [dictSet, if_neg h1, dictGetD]
      by_cases h2 : k1 = k'
      · simp [h2]
      · simp [h2, ih]

theorem strData_append (a b : String) : (a ++ b).data = a.data ++ b.data := by
  cases a
  cases b
  rfl

/-- The hour-bucket and day-bucket counter keys never alias: the former
starts with `"cap:"`, the latter with `"capday:"`. -/
theorem hourKeyName_ne_dayKeyName (u u' : Nat) (hk dk : String) :
    hourKeyName u hk ≠ dayKeyName u' dk := by
  intro heq
  have hd : (hourKeyName u hk).data = (dayKeyName u' dk).data := by rw [heq]
  have e1 : (hourKeyName u hk).data
      = 'c' :: 'a' :: 'p' :: ':' :: (toString u ++ (":" ++ hk)).data := by
    rw [hourKeyName, strData_append]
    rfl
  have e2 : (dayKeyName u' dk).data
      = 'c' :: 'a' :: 'p' :: 'd' :: 'a' :: 'y' :: ':' :: (toString u' ++ (":" ++ dk)).data := by
    rw [dayKeyName, strData_append]
    rfl
  rw [e1, e2] at hd
  injection hd with h1 hd
  injection hd with h2 hd
  injection hd with h3 hd
  injection hd with h4 hd
  exact absurd h4 (by decide)

/-- One quota check under both ceilings: both counters advance by one and
the call succeeds. -/
theorem enforce_ok_step (u : Nat) (hk dk : String) (m : List (String × Nat))
    (hh : dictGetD 0 m (hourKeyName u hk) < 60)
    (hd : dictGetD 0 m (dayKeyName u dk) < 200) :
    (enforce_internal_cap u hk dk m).snd = CapResult.ok ∧
      dictGetD 0 (enforce_internal_cap u hk dk m).fst (hourKeyName u hk)
        = dictGetD 0 m (hourKeyName u hk) + 1 ∧
      dictGetD 0 (enforce_internal_cap u hk dk m).fst (dayKeyName u dk)
        = dictGetD 0 m (dayKeyName u dk) + 1 := by
  have hne : dayKeyName u dk ≠ hourKeyName u hk :=
    fun hc => hourKeyName_ne_dayKeyName u u hk dk hc.symm
  have hne2 : hourKeyName u hk ≠ dayKeyName u dk :=
    hourKeyName_ne_dayKeyName u u hk dk
  simp only [enforce_internal_cap]
  rw [if_neg (by omega)]
  rw [dictGetD_dictSet_ne 0 _ _ _ _ hne]
  rw [if_neg (by omega)]
  refine ⟨rfl, ?_, ?_⟩
  · rw [dictGetD_dictSet_ne 0 _ _ _ _ hne2, dictGetD_dictSet_self]
  · rw [dictGetD_dictSet_self]

/-- One quota check with the hour counter already at (or beyond) the
ceiling: the call rejects with the hourly reason; the hour counter is
still incremented, and the day counter is left untouched. -/
theorem enforce_hourly_reject (u : Nat) (hk dk : String)
    (m : List (String × Nat))
    (hh : 60 ≤ dictGetD 0 m (hourKeyName u hk)) :
    (enforce_internal_cap u hk dk m).snd = CapResult.rejectedHourly ∧
      dictGetD 0 (enforce_internal_cap u hk dk m).fst (hourKeyName u hk)
        = dictGetD 0 m (hourKeyName u hk) + 1 ∧
      dictGetD 0 (enforce_internal_cap u hk dk m).fst (dayKeyName u dk)
        = dictGetD 0 m (dayKeyName u dk) := by
  have hne : dayKeyName u dk ≠ hourKeyName u hk :=
    fun hc => hourKeyName_ne_dayKeyName u u hk dk hc.symm
  simp only [enforce_internal_cap]
  rw [if_pos (by omega)]
  refine ⟨rfl, ?_, ?_⟩
  · rw [dictGetD_dictSet_self]
  · rw [dictGetD_dictSet_ne 0 _ _ _ _ hne]

/-- While both counters stay under their ceilings, a run of `n` checks
returns `ok` every time and advances both counters by `n`. -/
theorem runCap_ok (u : Nat) (hk dk : String) (n : Nat) :
    ∀ m : List (String × Nat),
      dictGetD 0 m (hourKeyName u hk) + n ≤ 60 →
      dictGetD 0 m (dayKeyName u dk) + n ≤ 200 →
      (runCap u hk dk n m).snd = List.replicate n CapResult.ok ∧
        dictGetD 0 (runCap u hk dk n m).fst (hourKeyName u hk)
          = dictGetD 0 m (hourKeyName u hk) + n ∧
        dictGetD 0 (runCap u hk dk n m).fst (dayKeyName u dk)
          = dictGetD 0 m (dayKeyName u dk) + n := by
  induction n with
  | zero => intro m _ _; simp [runCap]
  | succ k ih =>
    intro m hh hd
    obtain ⟨hok, hhc, hdc⟩ := enforce_ok_step u hk dk m (by omega) (by omega)
    have ihm := ih (enforce_internal_cap u hk dk m).fst (by omega) (by omega)
    simp only [runCap]
    refine ⟨?_, ?_, ?_⟩
    · rw [hok, ihm.1, List.replicate_succ]
    · rw [ihm.2.1, hhc]; omega
    · rw [ihm.2.2, hdc]; omega

/-- Decomposing a run of `a + b` checks into a run of `a` followed by a
run of `b` from the resulting state. -/
theorem runCap_add (u : Nat) (hk dk : String) (a b : Nat) :
    ∀ m : List (String × Nat),
      runCap u hk dk (a + b) m
        = ((runCap u hk dk b (runCap u hk dk a m).fst).fst,
           (runCap u hk dk a m).snd
             ++ (runCap u hk dk b (runCap u hk dk a m).fst).snd) := by
  induction a with
  | zero => intro m; simp [runCap]
  | succ j ih =>
    intro m
    have : j + 1 + b = (j + b) + 1 := by omega
    rw [this]
    simp only [runCap]
    rw [ih]
    simp

/-- Unfolding a single-step run. -/
theorem runCap_one (u : Nat) (hk dk : String) (m : List (String × Nat)) :
    runCap u hk dk 1 m
      = ((enforce_internal_cap u hk dk m).fst,
         [(enforce_internal_cap u hk dk m).snd]) := rfl

/-- C1: with the hourly ceiling at 60 and the daily ceiling not yet
reached, 61 consecutive quota checks in one hour bucket yield 60
successes followed by an hourly rejection, and the rejecting attempt is
itself counted: the hour counter ends at 61. -/
theorem cap_hourly_cutoff (u : Nat) (hk dk : String)
    (m : List (String × Nat))
    (hh : dictGetD 0 m (hourKeyName u hk) = 0)
    (hd : dictGetD 0 m (dayKeyName u dk) + 60 ≤ 200) :
    (runCap u hk dk 61 m).snd
        = List.replicate 60 CapResult.ok ++ [CapResult.rejectedHourly] ∧
      dictGetD 0 (runCap u hk dk 61 m).fst (hourKeyName u hk) = 61 := by
  obtain ⟨h60res, h60h, h60d⟩ := runCap_ok u hk dk 60 m (by omega) (by omega)
  have hsplit := runCap_add u hk dk 60 1 m
  obtain ⟨hrej, hrejh, hrejd⟩ :=
    enforce_hourly_reject u hk dk (runCap u hk dk 60 m).fst (by omega)
  constructor
  · rw [show (61 : Nat) = 60 + 1 from rfl, hsplit, runCap_one]
    rw [h60res, hrej]
  · rw [show (61 : Nat) = 60 + 1 from rfl, hsplit, runCap_one]
    rw [hrejh, h60h, hh]

/-- C1 witness: a concrete fresh caller hitting the cutoff. -/
theorem cap_hourly_cutoff_witness :
    (runCap 1 "2025010100" "20250101" 61 []).snd
        = List.replicate 60 CapResult.ok ++ [CapResult.rejectedHourly] ∧
      dictGetD 0 (runCap 1 "2025010100" "20250101" 61 []).fst
          (hourKeyName 1 "2025010100") = 61 :=
  cap_hourly_cutoff 1 "2025010100" "20250101" [] rfl (by decide)

/-- C2 counterexample: a quota check that ends in an hourly rejection
does not increment the day counter (the rejection is raised before the
day-counter increment, lines 106-108 of src/main.py), refuting "for
every call, regardless of outcome, both counters grow by exactly one". -/
theorem cap_reject_skips_day_counter_cex :
    (enforce_internal_cap 1 "2025010100" "20250101"
        (dictSet [] (hourKeyName 1 "2025010100") 60)).snd
        = CapResult.rejectedHourly ∧
      dictGetD 0 (enforce_internal_cap 1 "2025010100" "20250101"
          (dictSet [] (hourKeyName 1 "2025010100") 60)).fst
          (dayKeyName 1 "20250101")
        = dictGetD 0 (dictSet [] (hourKeyName 1 "2025010100") 60)
            (dayKeyName 1 "20250101") := by
  decide

/-- C2 amended: every quota check increments the hour counter before the
decision; the day counter is incremented exactly when the hourly check
passes, so an hourly-rejected call is counted only against the hour
window (a daily-rejected call is counted against both). -/
theorem cap_counters_amended (u : Nat) (hk dk : String)
    (m : List (String × Nat)) :
    dictGetD 0 (enforce_internal_cap u hk dk m).fst (hourKeyName u hk)
        = dictGetD 0 m (hourKeyName u hk) + 1 ∧
      (dictGetD 0 m (hourKeyName u hk) + 1 ≤ 60 →
        dictGetD 0 (enforce_internal_cap u hk dk m).fst (dayKeyName u dk)
          = dictGetD 0 m (dayKeyName u dk) + 1) ∧
      (60 < dictGetD 0 m (hourKeyName u hk) + 1 →
        (enforce_internal_cap u hk dk m).snd = CapResult.rejectedHourly ∧
          dictGetD 0 (enforce_internal_cap u hk dk m).fst (dayKeyName u dk)
            = dictGetD 0 m (dayKeyName u dk)) := by
  have hne : dayKeyName u dk ≠ hourKeyName u hk :=
    fun hc => hourKeyName_ne_dayKeyName u u hk dk hc.symm
  have hne2 : hourKeyName u hk ≠ dayKeyName u dk :=
    hourKeyName_ne_dayKeyName u u hk dk
  by_cases hcap : 60 < dictGetD 0 m (hourKeyName u hk) + 1
  · obtain ⟨h1, h2, h3⟩ := enforce_hourly_reject u hk dk m (by omega)
    exact ⟨h2, fun hc => absurd hc (by omega), fun _ => ⟨h1, h3⟩⟩
  · refine ⟨?_, fun _ => ?_, fun hc => absurd hc hcap⟩
    · simp only [enforce_internal_cap]
      rw [if_neg hcap]
      by_cases hday :
          200 < dictGetD 0 (dictSet m (hourKeyName u hk)
            (dictGetD 0 m (hourKeyName u hk) + 1)) (dayKeyName u dk) + 1
      · rw [if_pos hday]
        rw [dictGetD_dictSet_ne 0 _ _ _ _ hne2, dictGetD_dictSet_self]
      · rw [if_neg hday]
        rw [dictGetD_dictSet_ne 0 _ _ _ _ hne2, dictGetD_dictSet_self]
    · simp only [enforce_internal_cap]
      rw [if_neg hcap]
      by_cases hday :
          200 < dictGetD 0 (dictSet m (hourKeyName u hk)
            (dictGetD 0 m (hourKeyName u hk) + 1)) (dayKeyName u dk) + 1
      · rw [if_pos hday]
        rw [dictGetD_dictSet_self, dictGetD_dictSet_ne 0 _ _ _ _ hne]
      · rw [if_neg hday]
        rw [dictGetD_dictSet_self, dictGetD_dictSet_ne 0 _ _ _ _ hne]

/-- C2 amended witness: a fresh caller's first check counts in both
windows. -/
theorem cap_counters_amended_witness :
    dictGetD 0 (enforce_internal_cap 1 "2025010100" "20250101" []).fst
        (hourKeyName 1 "2025010100") = 1 ∧
      dictGetD 0 (enforce_internal_cap 1 "2025010100" "20250101" []).fst
        (dayKeyName 1 "20250101") = 1 :=
  ⟨(cap_counters_amended 1 "2025010100" "20250101" []).1.trans (by decide),
   ((cap_counters_amended 1 "2025010100" "20250101" []).2.1
      (by decide)).trans (by decide)⟩

/-- Chain lemma: if the attempted (supported) variants decompose as
`pre ++ vN :: post` where every variant in `pre` fails with a
validation marker and `vN` succeeds with `ms`, the loop returns `ms`
having invoked exactly `pre ++ [vN]`. -/
theorem fetchGo_success_at {μ : Type} (client : IGClient μ) (tag : String)
    (amount : Nat) :
    ∀ (l : List (String × List (String × String))) (saw : Bool)
      (pre : List (String × List (String × String)))
      (vN : String × List (String × String))
      (post : List (String × List (String × String))) (ms : List μ),
      l.filter (fun v => client.supported v.fst) = pre ++ vN :: post →
      (∀ v ∈ pre, isValFailure (client.call v.fst tag amount v.snd) = true) →
      client.call vN.fst tag amount vN.snd = CallResult.success ms →
      fetchGo client tag amount l saw = (Except.ok ms, pre ++ [vN]) := by
  intro l
  induction l with
  | nil =>
    intro saw pre vN post ms hfilt _ _
    have hlen := congrArg List.length hfilt
    simp at hlen
    omega
  | cons v rest ih =>
    intro saw pre vN post ms hfilt hpre hsucc
    by_cases hs : client.supported v.fst = true
    · rw [List.filter_cons_of_pos (by exact hs)] at hfilt
      cases pre with
      | nil =>
        simp only [List.nil_append] at hfilt ⊢
        have hv : v = vN := (List.cons.injEq _ _ _ _ ▸ hfilt).1
        subst hv
        simp [fetchGo, hs, hsucc]
      | cons p pre2 =>
        simp only [List.cons_append, List.cons.injEq] at hfilt
        obtain ⟨hvp, hrest⟩ := hfilt
        subst hvp
        have hv : isValFailure (client.call v.fst tag amount v.snd) = true :=
          hpre v (List.mem_cons_self v pre2)
        cases hcall : client.call v.fst tag amount v.snd with
        | success ms2 => rw [hcall] at hv; simp [isValFailure] at hv
        | failure msg =>
          rw [hcall] at hv
          have hm : is_media_validation_error msg = true := by
            simpa [isValFailure] using hv
          have hih := ih true pre2 vN post ms hrest
            (fun w hw => hpre w (List.mem_cons_of_mem v hw)) hsucc
          simp [fetchGo, hs, hcall, hm, hih]
    · rw [List.filter_cons_of_neg (by simpa using hs)] at hfilt
      have hih := ih saw pre vN post ms hfilt hpre hsucc
      simp [fetchGo, hs, hih]

/-- Chain lemma: if every variant in `pre` fails with a validation
marker and `vN` fails with an error not matching the markers, the loop
propagates that error, having invoked exactly `pre ++ [vN]`. -/
theorem fetchGo_failure_at {μ : Type} (client : IGClient μ) (tag : String)
    (amount : Nat) :
    ∀ (l : List (String × List (String × String))) (saw : Bool)
      (pre : List (String × List (String × String)))
      (vN : String × List (String × String))
      (post : List (String × List (String × String))) (msg : String),
      l.filter (fun v => client.supported v.fst) = pre ++ vN :: post →
      (∀ v ∈ pre, isValFailure (client.call v.fst tag amount v.snd) = true) →
      client.call vN.fst tag amount vN.snd = CallResult.failure msg →
      is_media_validation_error msg = false →
      fetchGo client tag amount l saw = (Except.error msg, pre ++ [vN]) := by
  intro l
  induction l with
  | nil =>
    intro saw pre vN post msg hfilt _ _ _
    have hlen := congrArg List.length hfilt
    simp at hlen
    omega
  | cons v rest ih =>
    intro saw pre vN post msg hfilt hpre hfail hnotval
    by_cases hs : client.supported v.fst = true
    · rw [List.filter_cons_of_pos (by exact hs)] at hfilt
      cases pre with
      | nil =>
        simp only [List.nil_append] at hfilt ⊢
        have hv : v = vN := (List.cons.injEq _ _ _ _ ▸ hfilt).1
        subst hv
        simp [fetchGo, hs, hfail, hnotval]
      | cons p pre2 =>
        simp only [List.cons_append, List.cons.injEq] at hfilt
        obtain ⟨hvp, hrest⟩ := hfilt
        subst hvp
        have hv : isValFailure (client.call v.fst tag amount v.snd) = true :=
          hpre v (List.mem_cons_self v pre2)
        cases hcall : client.call v.fst tag amount v.snd with
        | success ms2 => rw [hcall] at hv; simp [isValFailure] at hv
        | failure msg2 =>
          rw [hcall] at hv
          have hm : is_media_validation_error msg2 = true := by
            simpa [isValFailure] using hv
          have hih := ih true pre2 vN post msg hrest
            (fun w hw => hpre w (List.mem_cons_of_mem v hw)) hfail hnotval
          simp [fetchGo, hs, hcall, hm, hih]
    · rw [List.filter_cons_of_neg (by simpa using hs)] at hfilt
      have hih := ih saw pre vN post msg hfilt hpre hfail hnotval
      simp [fetchGo, hs, hih]

/-- Chain lemma: if every attempted variant fails with a validation
marker, the loop invokes them all and returns the empty list, not an
error. -/
theorem fetchGo_all_val {μ : Type} (client : IGClient μ) (tag : String)
    (amount : Nat) :
    ∀ (l : List (String × List (String × String))) (saw : Bool),
      (∀ v ∈ l.filter (fun v => client.supported v.fst),
        isValFailure (client.call v.fst tag amount v.snd) = true) →
      fetchGo client tag amount l saw
        = (Except.ok [], l.filter (fun v => client.supported v.fst)) := by
  intro l
  induction l with
  | nil => intro saw _; simp [fetchGo]
  | cons v rest ih =>
    intro saw hall
    by_cases hs : client.supported v.fst = true
    · have hv : isValFailure (client.call v.fst tag amount v.snd) = true :=
        hall v (by rw [List.filter_cons_of_pos (by exact hs)]
                   exact List.mem_cons_self v _)
      cases hcall : client.call v.fst tag amount v.snd with
      | success ms => rw [hcall] at hv; simp [isValFailure] at hv
      | failure msg =>
        rw [hcall] at hv
        have hm : is_media_validation_error msg = true := by
          simpa [isValFailure] using hv
        have hih := ih true (fun w hw => hall w
          (by rw [List.filter_cons_of_pos (by exact hs)]
              exact List.mem_cons_of_mem v hw))
        rw [List.filter_cons_of_pos (by exact hs)]
        simp [fetchGo, hs, hcall, hm, hih]
    · have hih := ih saw (fun w hw => hall w
        (by rw [List.filter_cons_of_neg (by simpa using hs)]; exact hw))
      rw [List.filter_cons_of_neg (by simpa using hs)]
      simp [fetchGo, hs, hih]

/-- C3: the fetch chain tries the configured variants in listed order,
skipping unsupported ones.  If the attempted variants split as
`pre ++ vN :: post` with every variant of `pre` failing on a
shape/validation marker, then: a success of `vN` is returned as-is with
no later variant invoked; a non-shape failure of `vN` propagates
immediately with no later variant invoked; and if all attempted
variants fail with shape markers the result is the empty list, not an
error. -/
theorem get_hashtag_medias_chain_spec {μ : Type} (client : IGClient μ)
    (tag : String) (amount : Nat) :
    (∀ pre vN post (ms : List μ),
        attemptedMethods client = pre ++ vN :: post →
        (∀ v ∈ pre, isValFailure (client.call v.fst tag amount v.snd) = true) →
        client.call vN.fst tag amount vN.snd = CallResult.success ms →
        get_hashtag_medias client tag amount = Except.ok ms ∧
          fetchTrace client tag amount = pre ++ [vN]) ∧
      (∀ pre vN post msg,
        attemptedMethods client = pre ++ vN :: post →
        (∀ v ∈ pre, isValFailure (client.call v.fst tag amount v.snd) = true) →
        client.call vN.fst tag amount vN.snd = CallResult.failure msg →
        is_media_validation_error msg = false →
        get_hashtag_medias client tag amount = Except.error msg ∧
          fetchTrace client tag amount = pre ++ [vN]) ∧
      ((∀ v ∈ attemptedMethods client,
          isValFailure (client.call v.fst tag amount v.snd) = true) →
        get_hashtag_medias client tag amount = Except.ok [] ∧
          fetchTrace client tag amount = attemptedMethods client) := by
  refine ⟨?_, ?_, ?_⟩
  · intro pre vN post ms hsplit hpre hsucc
    have h := fetchGo_success_at client tag amount fetchMethods false
      pre vN post ms hsplit hpre hsucc
    exact ⟨by rw [get_hashtag_medias, h], by rw [fetchTrace, h]⟩
  · intro pre vN post msg hsplit hpre hfail hnotval
    have h := fetchGo_failure_at client tag amount fetchMethods false
      pre vN post msg hsplit hpre hfail hnotval
    exact ⟨by rw [get_hashtag_medias, h], by rw [fetchTrace, h]⟩
  · intro hall
    have h := fetchGo_all_val client tag amount fetchMethods false hall
    exact ⟨by rw [get_hashtag_medias, h], by rw [fetchTrace, h]; rfl⟩

/-- C3 witness: with the first variant unsupported, the second failing
on a shape marker and the third succeeding with `[7]`, the chain
returns `[7]` and invokes exactly those two variants. -/
theorem get_hashtag_medias_chain_witness :
    get_hashtag_medias chainWitnessClient "fitness" 15 = Except.ok [7] ∧
      fetchTrace chainWitnessClient "fitness" 15
        = [("hashtag_medias_recent_v1", []),
           ("hashtag_medias_v1", [("tab_key", "recent")])] :=
  (get_hashtag_medias_chain_spec chainWitnessClient "fitness" 15).1
    [("hashtag_medias_recent_v1", [])]
    ("hashtag_medias_v1", [("tab_key", "recent")])
    [("hashtag_medias_v1", [("tab_key", "top")]),
     ("hashtag_medias_top_v1", [])]
    [7] (by decide) (by decide) (by decide)

/-- C5: for a media record that reaches the filter (fresh, truthy
account id, under the result cap): the engagement rate is 0 when the
follower count is 0 and `(likes + comments) / followers` when it is
positive, and the record is discarded exactly when the follower count
lies outside the inclusive range `[min_f, max_f]` or the engagement
rate is below `min_e`; otherwise it is emitted with that engagement. -/
theorem media_filter_spec (env : SearchEnv) (m : Media) (uid : Nat)
    (seen : List Nat) (results : List (Nat × SearchLead))
    (h20 : results.length < 20) (hpk : get_media_user_pk m = Option.some uid)
    (h0 : uid ≠ 0) (hseen : uid ∉ seen) :
    (followerCountOf env uid = 0 → mediaEngagement env m uid = 0) ∧
      (0 < followerCountOf env uid →
        mediaEngagement env m uid
          = (((get_media_like_count m).getD 0 : ℚ)
              + ((get_media_comment_count m).getD 0 : ℚ))
            / (((followerCountOf env uid : Int) : ℚ))) ∧
      mediaLoop env [m] seen results
        = (if followerCountOf env uid < env.min_f
              ∨ env.max_f < followerCountOf env uid
              ∨ mediaEngagement env m uid < env.min_e
           then (seen, results)
           else (uid :: seen, results ++ [(uid,
             { ig_username := (env.userInfo uid).username,
               follower_count := followerCountOf env uid,
               engagement_rate := mediaEngagement env m uid })])) := by
  have h20' : ¬ 20 ≤ results.length := by omega
  refine ⟨?_, ?_, ?_⟩
  · intro hfc; simp [mediaEngagement, hfc]
  · intro hfc; simp [mediaEngagement, hfc]
  · by_cases hr : followerCountOf env uid < env.min_f
        ∨ env.max_f < followerCountOf env uid
    · rw [if_pos (by tauto)]
      simp [mediaLoop, h20', hpk, h0, hseen, hr]
    · by_cases he : mediaEngagement env m uid < env.min_e
      · rw [if_pos (by tauto)]
        simp [mediaLoop, h20', hpk, h0, hseen, hr, he]
      · rw [if_neg (by tauto)]
        simp [mediaLoop, h20', hpk, h0, hseen, hr, he]

/-- C5 witness: with min_f = 1000, max_f = 10000, min_e = 0, account A
(5000 followers, 100 likes, 20 comments) is emitted with engagement
3/125 = 0.024, and account B (0 followers) is discarded by the follower
range. -/
theorem media_filter_spec_witness :
    mediaLoop envW [mediaA] [] []
        = ([1], [(1, { ig_username := "alice", follower_count := 5000,
                       engagement_rate := 3 / 125 })]) ∧
      mediaLoop envW [mediaB] [] [] = ([], []) := by
  have hA := (media_filter_spec envW mediaA 1 [] [] (by decide) rfl
    (by decide) (by decide)).2.2
  have hB := (media_filter_spec envW mediaB 2 [] [] (by decide) rfl
    (by decide) (by decide)).2.2
  constructor
  · rw [hA]
    norm_num [envW, userInfoW, followerCountOf, mediaEngagement, mediaA,
      get_media_like_count, get_media_comment_count]
  · rw [hB]
    norm_num [envW, userInfoW, followerCountOf]

/-- C4 counterexample: tags `t1`, `t2` both return a media of account 5
(10 resp. 100 likes, 5000 followers, min_e = 0.01).  The first
occurrence fails the engagement filter and is *not* recorded as seen,
so the second occurrence is fully processed and emitted: the single
lead's engagement is 1/50 (from the second media), not 10/5000 = 1/500
(the first occurrence's), refuting "the lead derives from the first
occurrence of the id" and "a record whose id was already seen is
skipped before any further processing". -/
theorem dedup_first_occurrence_cex :
    searchScan envCX mediasOfCX ["t1", "t2"]
        = [(5, { ig_username := "u", follower_count := 5000,
                 engagement_rate := 1 / 50 })] ∧
      (1 / 50 : ℚ) ≠ (10 : ℚ) / 5000 := by
  constructor
  · norm_num [searchScan, tagLoop, mediaLoop, envCX, mediasOfCX,
      followerCountOf, mediaEngagement, get_media_user_pk,
      get_media_like_count, get_media_comment_count]
  · norm_num

/-- Loop invariant of the media loop: the emitted leads carry pairwise
distinct account ids, each of which is in the dedup set. -/
theorem mediaLoop_inv (env : SearchEnv) :
    ∀ (ms : List Media) (seen : List Nat)
      (results : List (Nat × SearchLead)),
      (results.map Prod.fst).Nodup →
      (∀ uid ∈ results.map Prod.fst, uid ∈ seen) →
      ((mediaLoop env ms seen results).snd.map Prod.fst).Nodup ∧
        (∀ uid ∈ (mediaLoop env ms seen results).snd.map Prod.fst,
          uid ∈ (mediaLoop env ms seen results).fst) := by
  intro ms
  induction ms with
  | nil => intro seen results h1 h2; exact ⟨h1, h2⟩
  | cons m rest ih =>
    intro seen results h1 h2
    simp only [mediaLoop]
    split
    · exact ⟨h1, h2⟩
    · split
      · exact ih seen results h1 h2
      · rename_i uid heq
        split
        · exact ih seen results h1 h2
        · split
          · exact ih seen results h1 h2
          · rename_i hseen
            split
            · exact ih seen results h1 h2
            · split
              · exact ih seen results h1 h2
              · apply ih
                · have huid : uid ∉ results.map Prod.fst :=
                    fun hmem => hseen (h2 uid hmem)
                  simp [List.nodup_append, h1, huid]
                · intro w hw
                  simp only [List.map_append, List.mem_append,
                    List.map_cons, List.map_nil,
                    List.mem_singleton] at hw
                  rcases hw with hw | hw
                  · exact List.mem_cons_of_mem uid (h2 w hw)
                  · rw [hw]
                    exact List.mem_cons_self uid seen

/-- The media-loop invariant carried through the tag loop. -/
theorem tagLoop_inv (env : SearchEnv) (mediasOf : String → List Media) :
    ∀ (tags : List String) (seen : List Nat)
      (results : List (Nat × SearchLead)),
      (results.map Prod.fst).Nodup →
      (∀ uid ∈ results.map Prod.fst, uid ∈ seen) →
      ((tagLoop env mediasOf tags seen results).snd.map Prod.fst).Nodup := by
  intro tags
  induction tags with
  | nil => intro seen results h1 _; simpa [tagLoop] using h1
  | cons tag rest ih =>
    intro seen results h1 h2
    obtain ⟨hm1, hm2⟩ := mediaLoop_inv env (mediasOf tag) seen results h1 h2
    simp only [tagLoop]
    split
    · exact hm1
    · exact ih _ _ hm1 hm2

/-- The dedup set only grows during the media loop. -/
theorem mediaLoop_seen_mono (env : SearchEnv) :
    ∀ (ms : List Media) (seen : List Nat)
      (results : List (Nat × SearchLead)) (x : Nat),
      x ∈ seen → x ∈ (mediaLoop env ms seen results).fst := by
  intro ms
  induction ms with
  | nil => intro seen results x hx; exact hx
  | cons m rest ih =>
    intro seen results x hx
    simp only [mediaLoop]
    split
    · exact hx
    · split
      · exact ih seen results x hx
      · rename_i uid heq
        split
        · exact ih seen results x hx
        · split
          · exact ih seen results x hx
          · split
            · exact ih seen results x hx
            · split
              · exact ih seen results x hx
              · exact ih _ _ x (List.mem_cons_of_mem uid hx)

/-- Source of an emitted lead in the media loop: each lead of the output
that is not in the accumulator comes from a record `m` of the input that
passes the filter, owned by a fresh truthy id, with every *earlier*
record of the input owned by the same id failing the filter. -/
theorem mediaLoop_emit_src (env : SearchEnv) :
    ∀ (ms : List Media) (seen : List Nat)
      (results : List (Nat × SearchLead)) (u : Nat) (L : SearchLead),
      (u, L) ∈ (mediaLoop env ms seen results).snd →
      (u, L) ∈ results ∨
        ∃ s1 m s2, ms = s1 ++ m :: s2 ∧
          get_media_user_pk m = Option.some u ∧ u ≠ 0 ∧ u ∉ seen ∧
          passesFilter env m u ∧ L = leadOf env m u ∧ occFails env u s1 := by
  intro ms
  induction ms with
  | nil => intro seen results u L h; exact Or.inl h
  | cons m rest ih =>
    intro seen results u L h
    simp only [mediaLoop] at h
    split at h
    · exact Or.inl h
    · split at h
      · rename_i hnone
        rcases ih seen results u L h with hl |
          ⟨s1, mm, s2, hms, hid, h0, hseen, hp, hL, hof⟩
        · exact Or.inl hl
        · refine Or.inr ⟨m :: s1, mm, s2, by rw [hms]; rfl, hid, h0, hseen,
            hp, hL, ?_⟩
          intro mh hmh hidh
          rcases List.mem_cons.mp hmh with rfl | hmh
          · rw [hnone] at hidh; exact absurd hidh (by simp)
          · exact hof mh hmh hidh
      · rename_i uid heq
        split at h
        · rename_i h0eq
          rcases ih seen results u L h with hl |
            ⟨s1, mm, s2, hms, hid, h0, hseen, hp, hL, hof⟩
          · exact Or.inl hl
          · refine Or.inr ⟨m :: s1, mm, s2, by rw [hms]; rfl, hid, h0, hseen,
              hp, hL, ?_⟩
            intro mh hmh hidh
            rcases List.mem_cons.mp hmh with rfl | hmh
            · rw [heq] at hidh
              injection hidh with huv
              intro _
              exact h0 (by rw [← huv]; exact h0eq)
            · exact hof mh hmh hidh
        · split at h
          · rename_i hmem
            rcases ih seen results u L h with hl |
              ⟨s1, mm, s2, hms, hid, h0, hseen, hp, hL, hof⟩
            · exact Or.inl hl
            · refine Or.inr ⟨m :: s1, mm, s2, by rw [hms]; rfl, hid, h0, hseen,
                hp, hL, ?_⟩
              intro mh hmh hidh
              rcases List.mem_cons.mp hmh with rfl | hmh
              · rw [heq] at hidh
                injection hidh with huv
                intro _
                exact hseen (by rw [← huv]; exact hmem)
              · exact hof mh hmh hidh
          · split at h
            · rename_i hrange
              rcases ih seen results u L h with hl |
                ⟨s1, mm, s2, hms, hid, h0, hseen, hp, hL, hof⟩
              · exact Or.inl hl
              · refine Or.inr ⟨m :: s1, mm, s2, by rw [hms]; rfl, hid, h0,
                  hseen, hp, hL, ?_⟩
                intro mh hmh hidh
                rcases List.mem_cons.mp hmh with rfl | hmh
                · rw [heq] at hidh
                  injection hidh with huv
                  intro hpass
                  exact hpass.1 (by rw [← huv]; exact hrange)
                · exact hof mh hmh hidh
            · split at h
              · rename_i heng
                rcases ih seen results u L h with hl |
                  ⟨s1, mm, s2, hms, hid, h0, hseen, hp, hL, hof⟩
                · exact Or.inl hl
                · refine Or.inr ⟨m :: s1, mm, s2, by rw [hms]; rfl, hid, h0,
                    hseen, hp, hL, ?_⟩
                  intro mh hmh hidh
                  rcases List.mem_cons.mp hmh with rfl | hmh
                  · rw [heq] at hidh
                    injection hidh with huv
                    intro hpass
                    exact hpass.2 (by rw [← huv]; exact heng)
                  · exact hof mh hmh hidh
              · rename_i hn0 hnseen hnrange hneng
                rcases ih _ _ u L h with hl |
                  ⟨s1, mm, s2, hms, hid, h0, hseen, hp, hL, hof⟩
                · rcases List.mem_append.mp hl with hl2 | hl2
                  · exact Or.inl hl2
                  · have hpe := List.mem_singleton.mp hl2
                    injection hpe with hu hL2
                    subst hu
                    refine Or.inr ⟨[], m, rest, rfl, heq, hn0, hnseen,
                      ⟨hnrange, hneng⟩, hL2, ?_⟩
                    intro mh hmh
                    exact absurd hmh (List.not_mem_nil mh)
                · have hne : u ≠ uid := fun hc => hseen
                    (by rw [hc]; exact List.mem_cons_self uid seen)
                  have hns : u ∉ seen := fun hc =>
                    hseen (List.mem_cons_of_mem uid hc)
                  refine Or.inr ⟨m :: s1, mm, s2, by rw [hms]; rfl, hid, h0,
                    hns, hp, hL, ?_⟩
                  intro mh hmh hidh
                  rcases List.mem_cons.mp hmh with rfl | hmh
                  · rw [heq] at hidh
                    injection hidh with huv
                    intro _
                    exact hne huv.symm
                  · exact hof mh hmh hidh

/-- If the media loop ends under the result cap without account `u` in
its final dedup set, then every record of the input owned by `u` was
evaluated and failed the filter. -/
theorem mediaLoop_not_emitted (env : SearchEnv) :
    ∀ (ms : List Media) (seen : List Nat)
      (results : List (Nat × SearchLead)) (u : Nat), u ≠ 0 →
      (mediaLoop env ms seen results).snd.length < 20 →
      u ∉ (mediaLoop env ms seen results).fst →
      occFails env u ms := by
  intro ms
  induction ms with
  | nil =>
    intro seen results u h0 hlen hu mh hmh
    exact absurd hmh (List.not_mem_nil mh)
  | cons m rest ih =>
    intro seen results u h0 hlen hu
    by_cases hcap : 20 ≤ results.length
    · rw [show mediaLoop env (m :: rest) seen results = (seen, results)
        from by simp [mediaLoop, hcap]] at hlen
      exact absurd hcap (by simp at hlen; omega)
    · cases hpk : get_media_user_pk m with
      | none =>
        rw [show mediaLoop env (m :: rest) seen results
            = mediaLoop env rest seen results
          from by simp [mediaLoop, hcap, hpk]] at hlen hu
        intro mh hmh hidh
        rcases List.mem_cons.mp hmh with rfl | hmh
        · rw [hpk] at hidh; exact absurd hidh (by simp)
        · exact ih seen results u h0 hlen hu mh hmh hidh
      | some uid =>
        by_cases h0uid : uid = 0
        · rw [show mediaLoop env (m :: rest) seen results
              = mediaLoop env rest seen results
            from by simp [mediaLoop, hcap, hpk, h0uid]] at hlen hu
          intro mh hmh hidh
          rcases List.mem_cons.mp hmh with rfl | hmh
          · rw [hpk] at hidh
            injection hidh with huv
            intro _
            exact h0 (by rw [← huv]; exact h0uid)
          · exact ih seen results u h0 hlen hu mh hmh hidh
        · by_cases hmem : uid ∈ seen
          · rw [show mediaLoop env (m :: rest) seen results
                = mediaLoop env rest seen results
              from by simp [mediaLoop, hcap, hpk, h0uid, hmem]] at hlen hu
            intro mh hmh hidh
            rcases List.mem_cons.mp hmh with rfl | hmh
            · rw [hpk] at hidh
              injection hidh with huv
              intro _
              exact hu (mediaLoop_seen_mono env rest seen results u
                (by rw [← huv]; exact hmem))
            · exact ih seen results u h0 hlen hu mh hmh hidh
          · by_cases hrange : followerCountOf env uid < env.min_f
                ∨ env.max_f < followerCountOf env uid
            · rw [show mediaLoop env (m :: rest) seen results
                  = mediaLoop env rest seen results
                from by simp [mediaLoop, hcap, hpk, h0uid, hmem,
                  hrange]] at hlen hu
              intro mh hmh hidh
              rcases List.mem_cons.mp hmh with rfl | hmh
              · rw [hpk] at hidh
                injection hidh with huv
                intro hpass
                exact hpass.1 (by rw [← huv]; exact hrange)
              · exact ih seen results u h0 hlen hu mh hmh hidh
            · by_cases heng : mediaEngagement env m uid < env.min_e
              · rw [show mediaLoop env (m :: rest) seen results
                    = mediaLoop env rest seen results
                  from by simp [mediaLoop, hcap, hpk, h0uid, hmem, hrange,
                    heng]] at hlen hu
                intro mh hmh hidh
                rcases List.mem_cons.mp hmh with rfl | hmh
                · rw [hpk] at hidh
                  injection hidh with huv
                  intro hpass
                  exact hpass.2 (by rw [← huv]; exact heng)
                · exact ih seen results u h0 hlen hu mh hmh hidh
              · rw [show mediaLoop env (m :: rest) seen results
                    = mediaLoop env rest (uid :: seen) (results ++ [(uid,
                      { ig_username := (env.userInfo uid).username,
                        follower_count := followerCountOf env uid,
                        engagement_rate := mediaEngagement env m uid })])
                  from by simp [mediaLoop, hcap, hpk, h0uid, hmem, hrange,
                    heng]] at hlen hu
                intro mh hmh hidh
                rcases List.mem_cons.mp hmh with rfl | hmh
                · rw [hpk] at hidh
                  injection hidh with huv
                  intro _
                  exact hu (mediaLoop_seen_mono env rest (uid :: seen) _ u
                    (by rw [← huv]; exact List.mem_cons_self uid seen))
                · exact ih (uid :: seen) _ u h0 hlen hu mh hmh hidh

/-- Source of an emitted lead across the whole tag loop: each emitted
lead not in the accumulator comes from a passing record of some tag,
and every earlier record with the same owner id — in the same tag or
any earlier tag — fails the filter. -/
theorem tagLoop_emit_src (env : SearchEnv)
    (mediasOf : String → List Media) :
    ∀ (tags : List String) (seen : List Nat)
      (results : List (Nat × SearchLead)) (u : Nat) (L : SearchLead),
      (u, L) ∈ (tagLoop env mediasOf tags seen results).snd →
      (u, L) ∈ results ∨
        ∃ tags1 tag tags2 s1 m s2,
          tags = tags1 ++ tag :: tags2 ∧
          mediasOf tag = s1 ++ m :: s2 ∧
          get_media_user_pk m = Option.some u ∧ u ≠ 0 ∧ u ∉ seen ∧
          passesFilter env m u ∧ L = leadOf env m u ∧
          occFails env u s1 ∧
          (∀ t ∈ tags1, occFails env u (mediasOf t)) := by
  intro tags
  induction tags with
  | nil => intro seen results u L h; exact Or.inl h
  | cons tag rest ih =>
    intro seen results u L h
    by_cases hcap : 20 ≤ (mediaLoop env (mediasOf tag) seen results).snd.length
    · rw [show tagLoop env mediasOf (tag :: rest) seen results
          = mediaLoop env (mediasOf tag) seen results
        from by simp [tagLoop, hcap]] at h
      rcases mediaLoop_emit_src env (mediasOf tag) seen results u L h with
        hl | ⟨s1, m, s2, hms, hid, h0, hseen, hp, hL, hof⟩
      · exact Or.inl hl
      · exact Or.inr ⟨[], tag, rest, s1, m, s2, rfl, hms, hid, h0, hseen,
          hp, hL, hof, fun t ht => absurd ht (List.not_mem_nil t)⟩
    · rw [show tagLoop env mediasOf (tag :: rest) seen results
          = tagLoop env mediasOf rest
              (mediaLoop env (mediasOf tag) seen results).fst
              (mediaLoop env (mediasOf tag) seen results).snd
        from by simp [tagLoop, hcap]] at h
      rcases ih _ _ u L h with hl |
        ⟨tags1, tagm, tags2, s1, m, s2, htags, hms, hid, h0, hseen2, hp,
          hL, hof, htof⟩
      · rcases mediaLoop_emit_src env (mediasOf tag) seen results u L hl
          with hl2 | ⟨s1, m, s2, hms, hid, h0, hseen, hp, hL, hof⟩
        · exact Or.inl hl2
        · exact Or.inr ⟨[], tag, rest, s1, m, s2, rfl, hms, hid, h0,
            hseen, hp, hL, hof, fun t ht => absurd ht (List.not_mem_nil t)⟩
      · have hnotseen : u ∉ seen := fun hc =>
          hseen2 (mediaLoop_seen_mono env (mediasOf tag) seen results u hc)
        have hfailtag : occFails env u (mediasOf tag) :=
          mediaLoop_not_emitted env (mediasOf tag) seen results u h0
            (by omega) hseen2
        refine Or.inr ⟨tag :: tags1, tagm, tags2, s1, m, s2,
          by rw [htags]; rfl, hms, hid, h0, hnotseen, hp, hL, hof, ?_⟩
        intro t ht
        rcases List.mem_cons.mp ht with rfl | ht
        · exact hfailtag
        · exact htof t ht

/-- C4 amended: dedup is by *emitted* account id.  Across one whole
query the emitted leads have pairwise distinct owner ids (at most one
lead per account); a record whose id is already in the dedup set —
i.e. has already produced a lead — is skipped before any further
processing; and each emitted lead derives from the first occurrence of
its id that passes the result filter (every occurrence in an earlier
tag, or earlier in the same tag, fails the filter), which need not be
the first occurrence of the id (see the counterexample). -/
theorem dedup_amended (env : SearchEnv) (mediasOf : String → List Media)
    (hashtags : List String) :
    ((searchScan env mediasOf hashtags).map Prod.fst).Nodup ∧
      (∀ m rest seen results uid, results.length < 20 →
        get_media_user_pk m = Option.some uid → uid ≠ 0 → uid ∈ seen →
        mediaLoop env (m :: rest) seen results
          = mediaLoop env rest seen results) ∧
      (∀ u L, (u, L) ∈ searchScan env mediasOf hashtags →
        ∃ tags1 tag tags2 s1 m s2,
          hashtags = tags1 ++ tag :: tags2 ∧
          mediasOf tag = s1 ++ m :: s2 ∧
          get_media_user_pk m = Option.some u ∧ u ≠ 0 ∧
          passesFilter env m u ∧ L = leadOf env m u ∧
          occFails env u s1 ∧
          (∀ t ∈ tags1, occFails env u (mediasOf t))) := by
  refine ⟨?_, ?_, ?_⟩
  · exact tagLoop_inv env mediasOf hashtags [] [] (by simp) (by simp)
  · intro m rest seen results uid h20 hpk h0 hseen
    have h20' : ¬ 20 ≤ results.length := by omega
    simp [mediaLoop, h20', hpk, h0, hseen]
  · intro u L h
    rcases tagLoop_emit_src env mediasOf hashtags [] [] u L h with hl |
      ⟨tags1, tag, tags2, s1, m, s2, htags, hms, hid, h0, _, hp, hL, hof,
        htof⟩
    · exact absurd hl (List.not_mem_nil (u, L))
    · exact ⟨tags1, tag, tags2, s1, m, s2, htags, hms, hid, h0, hp, hL,
        hof, htof⟩

/-- C4 amended witness: a media owned by an id already in the dedup set
is skipped outright, and the lead emitted by a concrete one-tag scan is
traced back to its passing source record. -/
theorem dedup_amended_witness :
    mediaLoop envW [mediaA] [1] [] = mediaLoop envW [] [1] [] ∧
      (∃ tags1 tag tags2 s1 m s2,
        (["a"] : List String) = tags1 ++ tag :: tags2 ∧
        mediasOfW tag = s1 ++ m :: s2 ∧
        get_media_user_pk m = Option.some 1 ∧ (1 : Nat) ≠ 0 ∧
        passesFilter envW m 1 ∧
        ({ ig_username := "alice", follower_count := 5000,
           engagement_rate := 3 / 125 } : SearchLead) = leadOf envW m 1 ∧
        occFails envW 1 s1 ∧
        (∀ t ∈ tags1, occFails envW 1 (mediasOfW t))) := by
  constructor
  · exact (dedup_amended envW mediasOfW ["a"]).2.1 mediaA [] [1] [] 1
      (by decide) rfl (by decide) (by decide)
  · exact (dedup_amended envW mediasOfW ["a"]).2.2 1
      { ig_username := "alice", follower_count := 5000,
        engagement_rate := 3 / 125 }
      (by norm_num [searchScan, tagLoop, mediaLoop, envW, userInfoW,
        mediasOfW, followerCountOf, mediaEngagement, get_media_user_pk,
        get_media_like_count, get_media_comment_count, mediaA])

/-- C8: immediately after `pause_user` the caller is paused; once the
fixed 24-hour (86400 s) TTL has elapsed, with no intervening pause, the
caller is no longer paused. -/
theorem pause_ttl (u : Nat) (st : List (String × ℚ)) (t t' : ℚ) :
    is_paused t (pause_user t st u) u = true ∧
      (t + 86400 ≤ t' → is_paused t' (pause_user t st u) u = false) := by
  constructor
  · simp only [is_paused, pause_user, dictGetD_dictSet_self,
      decide_eq_true_eq]
    linarith
  · intro h
    simp only [is_paused, pause_user, dictGetD_dictSet_self,
      decide_eq_false_iff_not, not_lt]
    linarith

/-- C8 witness: pausing at time 0 pauses immediately, and the pause has
expired by time 86400. -/
theorem pause_ttl_witness :
    is_paused 0 (pause_user 0 [] 1) 1 = true ∧
      is_paused 86400 (pause_user 0 [] 1) 1 = false :=
  ⟨(pause_ttl 1 [] 0 86400).1, (pause_ttl 1 [] 0 86400).2 (by norm_num)⟩

/-- Unfolding the retry loop on a successful invocation. -/
theorem login_go_ok {α : Type} (outcomes : Nat → Except String α)
    (retries attempt : Nat) (sleeps : List Nat) (v : α)
    (h : outcomes attempt = Except.ok v) :
    login_with_retry_go outcomes retries attempt sleeps
      = (sleeps, Except.ok v) := by
  unfold login_with_retry_go
  rw [h]

/-- Unfolding the retry loop on a failed invocation. -/
theorem login_go_error {α : Type} (outcomes : Nat → Except String α)
    (retries attempt : Nat) (sleeps : List Nat) (msg : String)
    (h : outcomes attempt = Except.error msg) :
    login_with_retry_go outcomes retries attempt sleeps
      = if is_retryable_server_error msg = true ∧ attempt < retries then
          login_with_retry_go outcomes retries (attempt + 1)
            (sleeps ++ [2 * (attempt + 1)])
        else (sleeps, Except.error msg) := by
  conv_lhs => unfold login_with_retry_go; rw [h]

/-- Retry loop with every attempt up to `retries` failing transiently:
each retry `k` (for `k = attempt+1, ..., retries`) sleeps `2 * k`, and
the error of attempt `retries` is surfaced. -/
theorem login_go_all_transient {α : Type} (outcomes : Nat → Except String α)
    (retries : Nat) (errMsg : Nat → String)
    (hall : ∀ i, i ≤ retries → outcomes i = Except.error (errMsg i) ∧
      is_retryable_server_error (errMsg i) = true) :
    ∀ n attempt sleeps, retries - attempt = n → attempt ≤ retries →
      login_with_retry_go outcomes retries attempt sleeps
        = (sleeps ++ (List.range' (attempt + 1) (retries - attempt)).map
             (fun k => 2 * k),
           Except.error (errMsg retries)) := by
  intro n
  induction n with
  | zero =>
    intro attempt sleeps h0 hle
    have heq : attempt = retries := by omega
    subst heq
    rw [login_go_error outcomes attempt attempt sleeps (errMsg attempt)
      (hall attempt hle).1]
    rw [if_neg (fun hc => absurd hc.2 (lt_irrefl attempt))]
    simp [h0]
  | succ k ih =>
    intro attempt sleeps h0 hle
    have hlt : attempt < retries := by omega
    rw [login_go_error outcomes retries attempt sleeps (errMsg attempt)
      (hall attempt hle).1]
    rw [if_pos ⟨(hall attempt hle).2, hlt⟩]
    rw [ih (attempt + 1) (sleeps ++ [2 * (attempt + 1)]) (by omega) (by omega)]
    have hra : retries - attempt = (retries - (attempt + 1)) + 1 := by omega
    rw [hra, List.range'_succ]
    simp

/-- C9: the retry wrapper invokes the operation; a success returns at
once; a non-transient error (no 5xx/server-error marker) propagates
unchanged with no retry and no sleep; if the initial attempt and every
retry fail transiently, each retry `k` of the at most `retries` retries
is preceded by a `2 * k`-second sleep (linear backoff, base 2), and the
last error is surfaced. -/
theorem login_with_retry_spec {α : Type} (outcomes : Nat → Except String α)
    (retries : Nat) :
    (∀ v, outcomes 0 = Except.ok v →
        login_with_retry outcomes retries = ([], Except.ok v)) ∧
      (∀ msg, outcomes 0 = Except.error msg →
        is_retryable_server_error msg = false →
        login_with_retry outcomes retries = ([], Except.error msg)) ∧
      (∀ errMsg : Nat → String,
        (∀ i, i ≤ retries → outcomes i = Except.error (errMsg i) ∧
          is_retryable_server_error (errMsg i) = true) →
        login_with_retry outcomes retries
          = ((List.range' 1 retries).map (fun k => 2 * k),
             Except.error (errMsg retries))) := by
  refine ⟨?_, ?_, ?_⟩
  · intro v h
    rw [login_with_retry, login_go_ok outcomes retries 0 [] v h]
  · intro msg h hmsg
    rw [login_with_retry, login_go_error outcomes retries 0 [] msg h]
    rw [if_neg (fun hc => by rw [hmsg] at hc; exact absurd hc.1 (by simp))]
  · intro errMsg hall
    rw [login_with_retry]
    rw [login_go_all_transient outcomes retries errMsg hall (retries - 0) 0 []
      rfl (Nat.zero_le retries)]
    simp

/-- C9 witness: with the default `retries = 2`, a success returns
immediately; a non-transient error propagates with no sleeps; three
consecutive transient failures sleep 2 s then 4 s and surface the last
error. -/
theorem login_with_retry_spec_witness :
    login_with_retry outcomesOk 2 = ([], Except.ok 42) ∧
      login_with_retry outcomesAuthFail 2
        = ([], Except.error "challenge_required") ∧
      login_with_retry outcomesAllFail 2
        = ([2, 4], Except.error "HTTP 500 Internal Server Error") := by
  refine ⟨(login_with_retry_spec outcomesOk 2).1 42 rfl,
    (login_with_retry_spec outcomesAuthFail 2).2.1 "challenge_required"
      rfl (by decide), ?_⟩
  have h := (login_with_retry_spec outcomesAllFail 2).2.2
    (fun _ => "HTTP 500 Internal Server Error")
    (fun i _ => ⟨rfl, by
      show is_retryable_server_error "HTTP 500 Internal Server Error" = true
      decide⟩)
  rw [h]
  rfl

/-- C6: for every session payload, decrypting the encryption returns the
payload.  `encrypt_session`/`decrypt_session` compose the external
`json` and Fernet libraries in mirror order; those externals enter the
statement through their documented round-trip contracts
(`Fernet.decrypt(Fernet.encrypt(x)) = x`,
`json.loads(json.dumps(p)) = p`). -/
theorem session_roundtrip {σ : Type} (fernetEncrypt : String → String)
    (fernetDecrypt : String → Option String) (jsonDumps : σ → String)
    (jsonLoads : String → Option σ)
    (hfernet : ∀ s, fernetDecrypt (fernetEncrypt s) = Option.some s)
    (hjson : ∀ p, jsonLoads (jsonDumps p) = Option.some p) (p : σ) :
    decrypt_session fernetDecrypt jsonLoads
        (encrypt_session fernetEncrypt jsonDumps p)
      = Option.some p := by
  rw [encrypt_session, decrypt_session, hfernet, Option.some_bind, hjson]

/-- C6 witness: a concrete cipher/serializer pair satisfying the
round-trip contracts, applied to the payload `true`. -/
theorem session_roundtrip_witness :
    decrypt_session fernetDecW jsonLoadsW
        (encrypt_session fernetEncW jsonDumpsW true)
      = Option.some true :=
  session_roundtrip fernetEncW fernetDecW jsonDumpsW jsonLoadsW
    (fun _ => rfl) (by decide) true

/-- C7: the handle-to-slot mapping is *not* injective: stripping `'@'`
identifies the distinct handles `"a@b"` and `"ab"`, which collide on
the slot `sessions/ab.enc`. -/
theorem get_session_path_collision :
    get_session_path "a@b" = get_session_path "ab" ∧
      ("a@b" : String) ≠ "ab" := by
  constructor
  · rfl
  · decide

/-- C10: the final persistence step of a successful `search` leaves the
stored blob unchanged exactly when the decrypted session dict has a
truthy `"mock"` entry, and otherwise overwrites it with the
re-encrypted refreshed settings; the mock session `{"mock": True}`
written by `connect_ig` is truthy. -/
theorem search_persist_spec (fernetEncrypt : String → String)
    (jsonDumps : List (String × PyVal) → String)
    (session_dict refreshed : List (String × PyVal)) (stored : String) :
    (truthyOpt (dictGetOpt session_dict "mock") = true →
        search_persist_session fernetEncrypt jsonDumps session_dict
          refreshed stored = stored) ∧
      (truthyOpt (dictGetOpt session_dict "mock") = false →
        search_persist_session fernetEncrypt jsonDumps session_dict
          refreshed stored
          = encrypt_session fernetEncrypt jsonDumps refreshed) ∧
      truthyOpt (dictGetOpt mock_session "mock") = true := by
  refine ⟨fun h => ?_, fun h => ?_, by decide⟩
  · rw [search_persist_session, if_pos h]
  · rw [search_persist_session, if_neg (by rw [h]; exact Bool.false_ne_true)]

/-- C10 witness: the mock session is not overwritten; a session without
a `"mock"` entry is overwritten with the re-encrypted refreshed
settings. -/
theorem search_persist_spec_witness :
    search_persist_session fernetEncW jsonDumpsD mock_session [] "old"
        = "old" ∧
      search_persist_session fernetEncW jsonDumpsD [] [] "old"
        = encrypt_session fernetEncW jsonDumpsD [] :=
  ⟨(search_persist_spec fernetEncW jsonDumpsD mock_session [] "old").1
      (by decide),
   (search_persist_spec fernetEncW jsonDumpsD [] [] "old").2.1 (by decide)⟩

end LeadHunt
